import Mathlib

/-!
Verification of the EnergyPlus regression-suite orchestration engine
(`epregressions/runtests.py`) against its natural-language specification.

Python strings are embedded as `List Char`; Python `float` values arising
from the duration parser are embedded as exact decimal fractions (the
parsed literals are short decimal strings, so no rounding behaviour is
relevant to the properties below).  Fallible Python code (exceptions) is
embedded with `Option`, and filesystem state as an abstract existence
predicate plus a content map.
-/

namespace EPReg

/-- Coerce a Lean string literal to the `List Char` representation used
throughout the model. -/
def strOf (s : String) : List Char := s.toList

/-- Boolean test that `needle` is a prefix of `hay` (character-wise). -/
def isPre : List Char → List Char → Bool
  | [], _ => true
  | _ :: _, [] => false
  | a :: as, b :: bs => a == b && isPre as bs

/-- Python's `needle in hay` substring test. -/
def hasSub (needle : List Char) : List Char → Bool
  | [] => needle.isEmpty
  | b :: bs => isPre needle (b :: bs) || hasSub needle bs

/-- Python's `str.split(sep)` with an explicit one-character separator:
splits at every occurrence and keeps empty fields. -/
def splitCh (sep : Char) : List Char → List (List Char)
  | [] => [[]]
  | c :: rest =>
    if c = sep then [] :: splitCh sep rest
    else
      match splitCh sep rest with
      | [] => [[c]]
      | g :: gs => (c :: g) :: gs

/-- Worker for Python's `str.replace(old, new)`, scanning left to right
and replacing non-overlapping occurrences; `fuel` bounds the recursion
(instantiated with the text length, which suffices because every step
consumes at least one character). -/
def py_replace_aux (needle repl : List Char) : Nat → List Char → List Char
  | 0, l => l
  | _ + 1, [] => []
  | fuel + 1, c :: rest =>
    if isPre needle (c :: rest) && !needle.isEmpty then
      repl ++ py_replace_aux needle repl fuel (List.drop needle.length (c :: rest))
    else
      c :: py_replace_aux needle repl fuel rest

/-- Python's `str.replace(old, new)` for a non-empty pattern. -/
def py_replace (needle repl txt : List Char) : List Char :=
  py_replace_aux needle repl txt.length txt

/-- Python's `str.strip()`: drop leading and trailing whitespace. -/
def pyStrip (l : List Char) : List Char :=
  (((l.dropWhile Char.isWhitespace).reverse).dropWhile Char.isWhitespace).reverse

/-- `os.path.join` on a POSIX system, for the two-argument relative case
used by the suite runner. -/
def pjoin (a b : List Char) : List Char := a ++ '/' :: b

/-- Value of a decimal digit character. -/
def digitVal (c : Char) : Nat := c.toNat - 48

/-- Natural number denoted by a list of decimal digit characters
(most significant first); empty list denotes 0. -/
def natOfDigits (l : List Char) : Nat :=
  l.foldl (fun n c => 10 * n + digitVal c) 0

/-- Exact decimal value `mant / 10 ^ fracDigits`, the carrier for every
number the duration parser produces.  The parsed literals are short
decimal strings and all arithmetic on them is exact, so this embeds the
Python float computation faithfully for the properties considered here. -/
structure DecVal where
  mant : Nat
  fracDigits : Nat
deriving DecidableEq, Repr

/-- Rational value denoted by a `DecVal`. -/
def DecVal.toRat (d : DecVal) : ℚ := (d.mant : ℚ) / (10 : ℚ) ^ d.fracDigits

/-- Exact sum of two decimal values. -/
def DecVal.add (x y : DecVal) : DecVal :=
  ⟨x.mant * 10 ^ y.fracDigits + y.mant * 10 ^ x.fracDigits, x.fracDigits + y.fracDigits⟩

/-- Exact product of a decimal value by a natural scale factor. -/
def DecVal.scale (n : Nat) (x : DecVal) : DecVal := ⟨n * x.mant, x.fracDigits⟩

/-- Python's `float(s)` restricted to the plain decimal grammar
`digits [ '.' digits ]` (with at least one digit) actually produced by
the completion-marker duration tokens; any other shape is a `ValueError`,
embedded as `none`. -/
def parseDecimal (s : List Char) : Option DecVal :=
  let intPart := s.takeWhile Char.isDigit
  let rest := s.dropWhile Char.isDigit
  match rest with
  | [] => if intPart.isEmpty then none else some ⟨natOfDigits intPart, 0⟩
  | '.' :: fracPart =>
    if fracPart.all Char.isDigit && !(intPart.isEmpty && fracPart.isEmpty) then
      some ⟨natOfDigits intPart * 10 ^ fracPart.length + natOfDigits fracPart, fracPart.length⟩
    else none
  | _ => none

/-- Modelled from the spec: the four-state completion status enumeration
`{SUCCESS, FATAL, UNKNOWN, MISSING}` (the `EndErrSummary.STATUS_*`
constants live in `epregressions/structures.py`, which is not part of the
sources under verification; the spec, section 3, defines the enumeration). -/
inductive EndStatus
  | success
  | fatal
  | unknown
  | missing
deriving DecidableEq, Repr

/-- Python's `str.replace("\n", "")` used to sanitize the end-file text. -/
def removeNewlines (s : List Char) : List Char :=
  s.filter (fun c => c ≠ '\x0a')

/-- The duration parser of `SuiteRunner.process_end_file`
(runtests.py lines 657-666): take the text after the first `=`, split on
spaces dropping empty tokens, read the first two characters of tokens one
and two as hours and minutes, and the prefix of token three up to *one
character before* the first `s` as seconds.  Any Python exception on this
path (missing `=`, fewer than three tokens, no `s`, `float` failure) is
`none`. -/
def parse_runtime (end_contents : List Char) : Option DecVal := do
  let time_string ← (splitCh '=' end_contents).get? 1
  let time_string_tokens := (splitCh ' ' time_string).filter (fun x => !x.isEmpty)
  let t0 ← time_string_tokens.get? 0
  let t1 ← time_string_tokens.get? 1
  let t2 ← time_string_tokens.get? 2
  let hours ← parseDecimal (t0.take 2)
  let minutes ← parseDecimal (t1.take 2)
  let seconds_index ← t2.findIdx? (fun c => c = 's')
  let seconds ← parseDecimal (t2.take (seconds_index - 1))
  return ((hours.scale 3600).add (minutes.scale 60)).add seconds

/-- `SuiteRunner.process_end_file` (runtests.py lines 634-669): strip
newlines, classify by the success marker first and the fatal marker
second, returning `(UNKNOWN, 0)` without parsing when neither is present;
otherwise attach the parsed runtime (a parse exception propagates,
embedded as `none`). -/
def process_end_file (raw : List Char) : Option (EndStatus × DecVal) :=
  let end_contents := removeNewlines raw
  let statusO : Option EndStatus :=
    if hasSub (strOf "Successfully") end_contents then some EndStatus.success
    else if hasSub (strOf "Fatal") end_contents then some EndStatus.fatal
    else none
  match statusO with
  | none => some (EndStatus.unknown, ⟨0, 0⟩)
  | some status => (parse_runtime end_contents).map (fun t => (status, t))

/-- The one case name whose fatal-in-both-builds outcome is expected
(runtests.py line 464). -/
def emsKillName : List Char := strOf "EMSTestMathAndKill"

/-- Outcome decision for one case, one constructor per early-return branch
of `process_diffs_for_one_case` (runtests.py lines 463-518). -/
inductive Decision
  | proceed
  | skipBothFatal
  | skipOneFatal
  | skipBothMissing
  | skipOneMissing
  | skipUnknown
  | forcedSuccess
deriving DecidableEq, Repr

/-- Python's `sum(x == STATUS_SUCCESS for x in [status_case1, status_case2])`. -/
def countSuccess (s1 s2 : EndStatus) : Nat :=
  (if s1 = EndStatus.success then 1 else 0) + (if s2 = EndStatus.success then 1 else 0)

/-- Python's `sum(x == STATUS_MISSING for x in [status_case1, status_case2])`. -/
def countMissing (s1 s2 : EndStatus) : Nat :=
  (if s1 = EndStatus.missing then 1 else 0) + (if s2 = EndStatus.missing then 1 else 0)

/-- The decision logic of `SuiteRunner.process_diffs_for_one_case`
(runtests.py lines 463-518), with the Python `if`/`elif` chain kept in its
source order: the expected-fatal exception is tested first; when neither
status is MISSING the branch is chosen by the count of SUCCESS statuses
(with the arithmetically impossible fall-through of the inner chain
continuing to the diff section, i.e. `proceed`); otherwise by the count of
MISSING statuses, the final `else` being the unknown-combination log. -/
def process_decision (basename : List Char) (s1 s2 : EndStatus) : Decision :=
  if basename = emsKillName ∧ s1 = EndStatus.fatal ∧ s2 = EndStatus.fatal then
    Decision.forcedSuccess
  else if ¬(s1 = EndStatus.missing ∨ s2 = EndStatus.missing) then
    if countSuccess s1 s2 = 2 then Decision.proceed
    else if countSuccess s1 s2 = 0 then Decision.skipBothFatal
    else if countSuccess s1 s2 = 1 then Decision.skipOneFatal
    else Decision.proceed
  else if s1 = EndStatus.missing ∧ s2 = EndStatus.missing then Decision.skipBothMissing
  else if countMissing s1 s2 = 1 then Decision.skipOneMissing
  else Decision.skipUnknown

/-- The completion summary recorded for a case: for the expected-fatal
case with both builds FATAL a synthetic SUCCESS/SUCCESS pair is recorded
(runtests.py lines 464-478), otherwise the observed statuses and runtimes
(line 478). -/
def make_summary (basename : List Char) (s1 s2 : EndStatus) (r1 r2 : DecVal) :
    (EndStatus × DecVal) × (EndStatus × DecVal) :=
  if basename = emsKillName ∧ s1 = EndStatus.fatal ∧ s2 = EndStatus.fatal then
    ((EndStatus.success, r1), (EndStatus.success, r2))
  else ((s1, r1), (s2, r2))

/-- Spec-side decision table, written from the section 4.2 table amended
by the observed code behaviour: UNKNOWN statuses are handled by the
SUCCESS-count branches (so a pair from `{FATAL, UNKNOWN}²` reports as
both-fatal and a SUCCESS paired with UNKNOWN as one-fatal), and the
unknown-combination branch is unreachable. -/
def decision_table (basename : List Char) : EndStatus → EndStatus → Decision
  | EndStatus.fatal, EndStatus.fatal =>
    if basename = emsKillName then Decision.forcedSuccess else Decision.skipBothFatal
  | EndStatus.success, EndStatus.success => Decision.proceed
  | EndStatus.missing, EndStatus.missing => Decision.skipBothMissing
  | EndStatus.missing, _ => Decision.skipOneMissing
  | _, EndStatus.missing => Decision.skipOneMissing
  | EndStatus.success, _ => Decision.skipOneFatal
  | _, EndStatus.success => Decision.skipOneFatal
  | _, _ => Decision.skipBothFatal

/-- Abstract filesystem: which paths exist. -/
abbrev FS := List Char → Bool

/-- `SuiteRunner.both_files_exist` (runtests.py lines 379-384). -/
def both_files_exist (fs : FS) (base_path_a base_path_b common_relative_path : List Char) : Bool :=
  fs (pjoin base_path_a common_relative_path) && fs (pjoin base_path_b common_relative_path)

/-- The sixteen artifact kinds the diff section of
`process_diffs_for_one_case` dispatches on: four math (CSV) kinds, the
tabular kind, and eleven text kinds. -/
inductive FileKind
  | eso | mtr | zsz | ssz
  | table
  | aud | bnd | dxf | eio | mdd | mtd | rdd | shd | err | dlin | dlout
deriving DecidableEq, Repr

/-- The dispatch table of `process_diffs_for_one_case` (runtests.py lines
523-629): the code is a chain of sixteen independent `if
both_files_exist(...)` blocks in exactly this order, each attaching one
diff record of the corresponding kind. -/
def diff_table : List (FileKind × List Char) :=
  [(FileKind.eso, strOf "eplusout.csv"), (FileKind.mtr, strOf "eplusmtr.csv"),
   (FileKind.zsz, strOf "epluszsz.csv"), (FileKind.ssz, strOf "eplusssz.csv"),
   (FileKind.table, strOf "eplustbl.htm"),
   (FileKind.aud, strOf "eplusout.audit"), (FileKind.bnd, strOf "eplusout.bnd"),
   (FileKind.dxf, strOf "eplusout.dxf"), (FileKind.eio, strOf "eplusout.eio"),
   (FileKind.mdd, strOf "eplusout.mdd"), (FileKind.mtd, strOf "eplusout.mtd"),
   (FileKind.rdd, strOf "eplusout.rdd"), (FileKind.shd, strOf "eplusout.shd"),
   (FileKind.err, strOf "eplusout.err"), (FileKind.dlin, strOf "eplusout.delightin"),
   (FileKind.dlout, strOf "eplusout.delightout")]

/-- Artifact file name compared for a given kind. -/
def artifact_name : FileKind → List Char
  | FileKind.eso => strOf "eplusout.csv"
  | FileKind.mtr => strOf "eplusmtr.csv"
  | FileKind.zsz => strOf "epluszsz.csv"
  | FileKind.ssz => strOf "eplusssz.csv"
  | FileKind.table => strOf "eplustbl.htm"
  | FileKind.aud => strOf "eplusout.audit"
  | FileKind.bnd => strOf "eplusout.bnd"
  | FileKind.dxf => strOf "eplusout.dxf"
  | FileKind.eio => strOf "eplusout.eio"
  | FileKind.mdd => strOf "eplusout.mdd"
  | FileKind.mtd => strOf "eplusout.mtd"
  | FileKind.rdd => strOf "eplusout.rdd"
  | FileKind.shd => strOf "eplusout.shd"
  | FileKind.err => strOf "eplusout.err"
  | FileKind.dlin => strOf "eplusout.delightin"
  | FileKind.dlout => strOf "eplusout.delightout"

/-- The diff records attached to a work item by the diff section of
`process_diffs_for_one_case` for a case that reached the diff stage: one
record per table entry whose artifact exists in both result directories.
Modelled from the spec: the record accumulators
(`TestEntry.add_math_differences` and friends) live in
`epregressions/structures.py`, which is outside the verified sources; per
spec section 3 a work item accumulates zero-or-more records, so each call
appends one record. -/
def dispatch_diffs (fs : FS) (dir1 dir2 : List Char) : List FileKind :=
  (diff_table.filter (fun kf => both_files_exist fs dir1 dir2 kf.2)).map Prod.fst

/-- Modelled from the spec: text-diff outcome enumeration
(`TextDifferences.EQUAL` / `TextDifferences.DIFFS` in
`epregressions/structures.py`, outside the verified sources; spec
section 3 gives `{equal, differs}`). -/
inductive TextDiffOutcome
  | equal
  | diffs
deriving DecidableEq, Repr

/-- The volatile substrings stripped by `diff_text_files`
(runtests.py lines 395-403). -/
def skip_strings : List (List Char) :=
  [strOf "Program Version,EnergyPlus",
   strOf "EnergyPlus Completed",
   strOf "EnergyPlus Terminated",
   strOf "DElight input generated",
   strOf "(idf)=",
   strOf "(user input)=",
   strOf "(input file)="]

/-- The cleaning loops of `diff_text_files` (runtests.py lines 404-414):
keep a line unless it contains one of the volatile substrings. -/
def remove_volatile : List (List Char) → List (List Char)
  | [] => []
  | line :: rest =>
    if skip_strings.any (fun x => hasSub x line) then remove_volatile rest
    else line :: remove_volatile rest

/-- `SuiteRunner.diff_text_files` (runtests.py lines 386-427) on the two
files' line lists; the second component records whether a unified-diff
artifact file is written to the diff path. -/
def diff_text_files (txt1 txt2 : List (List Char)) : TextDiffOutcome × Bool :=
  let txt1_cleaned := remove_volatile txt1
  let txt2_cleaned := remove_volatile txt2
  if txt1_cleaned = txt2_cleaned then (TextDiffOutcome.equal, false)
  else (TextDiffOutcome.diffs, true)

/-- Spec-side description of the stripped line sequence: every line that
contains any of the fixed volatile substrings is removed. -/
def volatile_stripped (txt : List (List Char)) : List (List Char) :=
  txt.filter (fun line => decide (∀ p ∈ skip_strings, hasSub p line = false))

/-- Modelled from the spec: the structured completion record returned by
the external simulation executor (spec section 6) — only the completion
status and runtime matter downstream. -/
structure RunResult where
  status : EndStatus
  runtime : DecVal

/-- Per-build execution state: for each case basename, the result of its
run if it has been executed (each case writes only to its own isolated
run directory). -/
abbrev RunState := List Char → Option RunResult

/-- Executing one task updates exactly that case's slot with the
(deterministic) executor's result. -/
def apply_task (ex : List Char → RunResult) (s : RunState) (t : List Char) : RunState :=
  fun k => if k = t then some (ex t) else s k

/-- Executing a list of tasks in the given order (for pool size 1 the
submission order; for a pool the completion order). -/
def run_tasks (ex : List Char → RunResult) (l : List (List Char)) (s : RunState) : RunState :=
  l.foldl (apply_task ex) s

/-- Status a case classifies as during the diff phase: MISSING when the
case never ran (no end file), otherwise the run's own status
(runtests.py lines 452-461). -/
def statusOf : Option RunResult → EndStatus
  | none => EndStatus.missing
  | some r => r.status

/-- The per-case outcome the diff phase derives from the two builds'
final execution states; the suite result buckets are a function of this
list. -/
def suite_outcome (entries : List (List Char)) (sA sB : RunState) :
    List (List Char × Decision) :=
  entries.map (fun e => (e, process_decision e (statusOf (sA e)) (statusOf (sB e))))

/-- Observable events of the progress/event protocol
(runtests.py lines 704-755). -/
inductive Event
  | printedMissingInput (name : List Char)
  | printedSkipFMU (name : List Char)
  | starting
  | caseCompleted (name : List Char) (ok : Bool)
  | simsComplete
  | diffCompleted (name : List Char)
  | errorLogged (name msg : List Char)
  | allDone
  | cancelled
deriving DecidableEq, Repr

/-- Atomic steps of `run_test_suite` relevant to cancellation:
`check` is a poll of `id_like_to_stop_now` (a triggered in-loop poll in
`run_build` returns to the caller whose own poll then emits the
cancellation event, so a triggered `check` directly emitting `cancelled`
is observationally the same). -/
inductive Instr
  | prepare
  | check
  | exec (name : List Char)
  | emitStarting
  | emitSims
  | diffCase (name : List Char)
  | emitAllDone
deriving DecidableEq, Repr

/-- Run the instruction stream: `n` counts processed instructions and the
cancellation flag is observed as set from step `cancelAt` on; a `check`
that observes the flag emits the cancellation event and stops the run
(runtests.py lines 112-164, 341-350). -/
def runFrom (cancelAt : Nat) : Nat → List Instr → List Event
  | _, [] => []
  | n, Instr.check :: rest =>
    if cancelAt ≤ n then [Event.cancelled] else runFrom cancelAt (n + 1) rest
  | n, Instr.prepare :: rest => runFrom cancelAt (n + 1) rest
  | n, Instr.exec nm :: rest => Event.caseCompleted nm true :: runFrom cancelAt (n + 1) rest
  | n, Instr.emitStarting :: rest => Event.starting :: runFrom cancelAt (n + 1) rest
  | n, Instr.emitSims :: rest => Event.simsComplete :: runFrom cancelAt (n + 1) rest
  | n, Instr.diffCase nm :: rest => Event.diffCompleted nm :: runFrom cancelAt (n + 1) rest
  | n, Instr.emitAllDone :: rest => Event.allDone :: runFrom cancelAt (n + 1) rest

/-- Events an instruction emits when the cancellation flag is not
observed at it. -/
def instr_events : Instr → List Event
  | Instr.prepare => []
  | Instr.check => []
  | Instr.exec nm => [Event.caseCompleted nm true]
  | Instr.emitStarting => [Event.starting]
  | Instr.emitSims => [Event.simsComplete]
  | Instr.diffCase nm => [Event.diffCompleted nm]
  | Instr.emitAllDone => [Event.allDone]

/-- Events of an uncancelled run of an instruction stream. -/
def pure_run (l : List Instr) : List Event := (l.map instr_events).flatten

/-- The instruction stream of `run_test_suite` before its final all-done
event, with both builds run serially (pool size 1): directory
preparation, then a flag poll, the starting event, per-task polls and
executions for build A, a poll, the same for build B, a poll, the
simulations-complete event, and the per-entry diff phase (which contains
no poll). -/
def suite_body (tasksA tasksB entries : List (List Char)) : List Instr :=
  Instr.prepare :: Instr.check :: Instr.emitStarting ::
    ((tasksA.map (fun t => [Instr.check, Instr.exec t])).flatten ++
      Instr.check ::
        ((tasksB.map (fun t => [Instr.check, Instr.exec t])).flatten ++
          Instr.check :: Instr.emitSims :: entries.map Instr.diffCase))

/-- The full instruction stream of `run_test_suite`: the body followed by
the final all-done event. -/
def suite_instrs (tasksA tasksB entries : List (List Char)) : List Instr :=
  suite_body tasksA tasksB entries ++ [Instr.emitAllDone]

/-- Events observed for a whole suite run when the cancellation flag
becomes set at step `cancelAt` (a value past the stream length means the
flag is never set during the run). -/
def run_suite_events (tasksA tasksB entries : List (List Char)) (cancelAt : Nat) : List Event :=
  runFrom cancelAt 0 (suite_instrs tasksA tasksB entries)

/-- Modelled from the spec: a work item accumulating its diff records
(`TestEntry` in `epregressions/structures.py`, outside the verified
sources; spec section 3). -/
structure DiffEntry where
  name : List Char
  records : List FileKind
deriving DecidableEq, Repr

/-- Accumulator of `diff_logs_for_build`: entries added to the completed
structure, the work items with their (possibly partial) records, and the
emitted events. -/
structure DiffLogsAcc where
  structureEntries : List DiffEntry
  updatedEntries : List DiffEntry
  events : List Event
deriving DecidableEq, Repr

/-- One iteration of the `diff_logs_for_build` loop
(runtests.py lines 679-691): `outcome e` gives the diff records attached
to entry `e` before a possible exception together with the exception
message if one was raised.  On success the entry joins the completed
structure; on an exception two log lines (case identifier, message) are
emitted and the entry is skipped; in both cases the entry keeps the
records added so far and the diff-completed event fires (`finally`). -/
def diff_logs_step (outcome : List Char → List FileKind × Option (List Char))
    (acc : DiffLogsAcc) (e : DiffEntry) : DiffLogsAcc :=
  let res := outcome e.name
  let updated : DiffEntry := ⟨e.name, e.records ++ res.1⟩
  match res.2 with
  | none =>
    ⟨acc.structureEntries ++ [updated], acc.updatedEntries ++ [updated],
      acc.events ++ [Event.diffCompleted e.name]⟩
  | some msg =>
    ⟨acc.structureEntries, acc.updatedEntries ++ [updated],
      acc.events ++ [Event.errorLogged e.name msg, Event.diffCompleted e.name]⟩

/-- `SuiteRunner.diff_logs_for_build` (runtests.py lines 672-692). -/
def diff_logs_for_build (outcome : List Char → List FileKind × Option (List Char))
    (entries : List DiffEntry) : DiffLogsAcc :=
  entries.foldl (diff_logs_step outcome) ⟨[], [], []⟩

/-- The build-tree fields `run_build` consults when staging one entry
(spec section 6 external build abstraction). -/
structure BuildTree where
  build_dir : List Char
  test_files_dir : List Char

/-- Substrings `run_build` looks for in the input text
(runtests.py lines 221-260). -/
def win5Tok : List Char := strOf "Window5DataFile.dat"

/-- Window5 dataset path rewritten in the staged input (line 225). -/
def win5Old : List Char := strOf "..\\datasets\\Window5DataFile.dat"

/-- Replacement for the Window5 dataset path. -/
def win5New : List Char := strOf "datasets/Window5DataFile.dat"

/-- First TDV dataset trigger substring (line 229). -/
def tdvTok1 : List Char := strOf "DataSets\\TDV"

/-- Second TDV dataset trigger substring (line 229). -/
def tdvTok2 : List Char := strOf "DataSets\\\\TDV"

/-- TDV dataset path rewritten in the staged input (lines 241-244). -/
def tdvOld : List Char := strOf "..\\datasets\\TDV\\TDV_2008_kBtu_CTZ06.csv"

/-- Replacement for the TDV dataset path (POSIX join). -/
def tdvNew : List Char := strOf "datasets/TDV/TDV_2008_kBtu_CTZ06.csv"

/-- Report-variable-dictionary directive removed from the staged input
(lines 252-253). -/
def rvdTok : List Char := strOf "report variable dictionary"

/-- Parametric trigger substring (line 255). -/
def parametricTok : List Char := strOf "Parametric:"

/-- FMU trigger substring (line 260). -/
def extIntTok : List Char := strOf "ExternalInterface:"

/-- Text rewrites `run_build` applies to a primary input before the
parametric and FMU checks (runtests.py lines 221-253). -/
def stage_transform (txt : List Char) : List Char :=
  let t1 := if hasSub win5Tok txt then py_replace win5Old win5New txt else txt
  let t2 := if hasSub tdvTok1 t1 || hasSub tdvTok2 t1 then py_replace tdvOld tdvNew t1 else t1
  if hasSub rvdTok t2 then py_replace rvdTok [] t2 else t2

/-- The stripped absolute base path of an entry's input file
(runtests.py lines 205-206). -/
def idf_base_of (tree : BuildTree) (basename : List Char) : List Char :=
  pyStrip (pjoin tree.test_files_dir basename)

/-- The staging step of the `run_build` entry loop
(runtests.py lines 196-339) for one entry, reduced to its observable
effects: the events emitted and, when the case is to be simulated, the
submitted task (basename and parametric flag).  A primary input whose
(rewritten) text contains the FMU trigger is skipped with only a print; a
missing input in both forms prints and reports a failed case completion;
otherwise a task is submitted. -/
def stage_entry (fs : FS) (readText : List Char → List Char) (tree : BuildTree)
    (basename : List Char) : List Event × Option (List Char × Bool) :=
  let idf_path := idf_base_of tree basename ++ strOf ".idf"
  let imf_path := idf_base_of tree basename ++ strOf ".imf"
  if fs idf_path then
    let idf_text := stage_transform (readText idf_path)
    let parametric_file := hasSub parametricTok idf_text
    if hasSub extIntTok idf_text then ([Event.printedSkipFMU basename], none)
    else ([], some (basename, parametric_file))
  else if fs imf_path then ([], some (basename, false))
  else ([Event.printedMissingInput basename, Event.caseCompleted basename false], none)

/-- The whole staging loop of `run_build` over the entry list
(runtests.py lines 196-339): events accumulate and the submitted job list
collects the staged tasks. -/
def run_build_stage (fs : FS) (readText : List Char → List Char) (tree : BuildTree)
    (entries : List (List Char)) : List Event × List (List Char × Bool) :=
  entries.foldl
    (fun acc e =>
      let r := stage_entry fs readText tree e
      (acc.1 ++ r.1, acc.2 ++ r.2.toList))
    ([], [])

/-- End-file lookup of `process_diffs_for_one_case`
(runtests.py lines 452-461): the status starts as MISSING with runtime 0
and is overwritten only when the end file exists. -/
def read_end_status (fs : FS) (readText : List Char → List Char) (case_dir : List Char) :
    Option (EndStatus × DecVal) :=
  if fs (pjoin case_dir (strOf "eplusout.end")) then
    process_end_file (readText (pjoin case_dir (strOf "eplusout.end")))
  else some (EndStatus.missing, ⟨0, 0⟩)

/-- A prefix test survives extending the haystack on the right. -/
theorem isPre_append (n xs ys : List Char) (h : isPre n xs = true) :
    isPre n (xs ++ ys) = true := by
  induction n generalizing xs with
  | nil => simp [isPre]
  | cons a as ih =>
    cases xs with
    | nil => simp [isPre] at h
    | cons b bs =>
      simp only [isPre, Bool.and_eq_true, beq_iff_eq] at h
      simpa [isPre, Bool.and_eq_true, beq_iff_eq] using ⟨h.1, ih bs h.2⟩

/-- The empty needle occurs in every haystack. -/
theorem hasSub_nil (ys : List Char) : hasSub [] ys = true := by
  cases ys <;> simp [hasSub, isPre]

/-- A substring occurrence survives extending the haystack on the right. -/
theorem hasSub_append_right (n xs ys : List Char) (h : hasSub n xs = true) :
    hasSub n (xs ++ ys) = true := by
  induction xs with
  | nil =>
    simp only [hasSub, List.isEmpty_eq_true] at h
    subst h
    exact hasSub_nil ys
  | cons b bs ih =>
    simp only [hasSub, Bool.or_eq_true] at h
    rcases h with h | h
    · simp only [List.cons_append, hasSub, Bool.or_eq_true]
      exact Or.inl (isPre_append _ _ _ h)
    · simp only [List.cons_append, hasSub, Bool.or_eq_true]
      exact Or.inr (ih h)

/-- Splitting never produces an empty group list. -/
theorem splitCh_ne_nil (sep : Char) (l : List Char) : splitCh sep l ≠ [] := by
  induction l with
  | nil => simp [splitCh]
  | cons c rest ih =>
    simp only [splitCh]
    split
    · simp
    · rcases h : splitCh sep rest with _ | ⟨g, gs⟩ <;> simp [h]

/-- Splitting a separator-free string yields that single field. -/
theorem splitCh_sepFree (sep : Char) (l : List Char) (h : sep ∉ l) :
    splitCh sep l = [l] := by
  induction l with
  | nil => simp [splitCh]
  | cons c rest ih =>
    simp only [List.mem_cons, not_or] at h
    simp only [splitCh]
    rw [if_neg (fun hh => h.1 hh.symm), ih h.2]

/-- Splitting peels off a separator-free field before the first
separator. -/
theorem splitCh_append (sep : Char) (pre rest : List Char) (h : sep ∉ pre) :
    splitCh sep (pre ++ sep :: rest) = pre :: splitCh sep rest := by
  induction pre with
  | nil => simp [splitCh]
  | cons c p ih =>
    simp only [List.mem_cons, not_or] at h
    simp only [List.cons_append, splitCh]
    rw [if_neg (fun hh => h.1 hh.symm)]
    simp only [List.append_eq]
    rw [ih h.2]

/-- Newline removal is the identity on newline-free text. -/
theorem removeNewlines_eq_self (l : List Char) (h : '\x0a' ∉ l) :
    removeNewlines l = l := by
  rw [removeNewlines, List.filter_eq_self]
  intro a ha
  simp only [ne_eq, decide_eq_true_eq]
  exact fun heq => h (heq ▸ ha)

/-- A decimal digit character is none of the structural characters of a
completion marker. -/
theorem digit_ne_special (c : Char) (h : c.isDigit = true) :
    c ≠ 's' ∧ c ≠ ' ' ∧ c ≠ '=' ∧ c ≠ '.' ∧ c ≠ '\x0a' := by
  refine ⟨?_, ?_, ?_, ?_, ?_⟩ <;> (rintro rfl; revert h; decide)

/-- Python `float` on a two-digit-character string. -/
theorem parseDecimal_two_digits (a b : Char) (ha : a.isDigit = true) (hb : b.isDigit = true) :
    parseDecimal [a, b] = some ⟨10 * digitVal a + digitVal b, 0⟩ := by
  simp [parseDecimal, List.takeWhile_cons, List.dropWhile_cons, ha, hb, natOfDigits]

/-- Python `float` on a `D.D` string. -/
theorem parseDecimal_one_dot_one (e f : Char) (he : e.isDigit = true) (hf : f.isDigit = true) :
    parseDecimal [e, '.', f] = some ⟨digitVal e * 10 + digitVal f, 1⟩ := by
  have hdot : ('.' : Char).isDigit = false := by decide
  simp [parseDecimal, List.takeWhile_cons, List.dropWhile_cons, he, hf, hdot, natOfDigits]

/-- C1 counterexample: for an ordinary case, the status pair
(SUCCESS, UNKNOWN) — which is neither both-success, both-fatal, one-fatal,
both-missing nor one-missing — is not logged as an unknown combination;
the code reports it through the one-fatal branch. -/
theorem c1_decision_matrix_counterexample :
    process_decision (strOf "SimpleTest") EndStatus.success EndStatus.unknown =
      Decision.skipOneFatal ∧
    Decision.skipOneFatal ≠ Decision.skipUnknown :=
  ⟨by decide, by decide⟩

/-- C1 (amended): the outcome decision follows the section 4.2 table with
UNKNOWN handled like FATAL: only (SUCCESS, SUCCESS) proceeds, the
expected-fatal case with (FATAL, FATAL) is checked first and records a
synthetic SUCCESS/SUCCESS summary with no diffing, missing statuses give
the both/one-missing skips, and every remaining pair reports through the
both-fatal or one-fatal branch — the unknown-combination branch is never
reached. -/
theorem c1_decision_matrix_amended (basename : List Char) (s1 s2 : EndStatus) (r1 r2 : DecVal) :
    process_decision basename s1 s2 = decision_table basename s1 s2 ∧
    process_decision basename s1 s2 ≠ Decision.skipUnknown ∧
    (process_decision basename s1 s2 = Decision.forcedSuccess →
      make_summary basename s1 s2 r1 r2 = ((EndStatus.success, r1), (EndStatus.success, r2))) := by
  by_cases hb : basename = emsKillName <;>
    cases s1 <;> cases s2 <;>
      simp [process_decision, decision_table, make_summary, countSuccess, countMissing, hb]

/-- C1 amended witness: the expected-fatal case with both builds fatal
records the synthetic SUCCESS/SUCCESS summary. -/
theorem c1_decision_matrix_amended_witness :
    make_summary emsKillName EndStatus.fatal EndStatus.fatal ⟨1, 0⟩ ⟨2, 0⟩ =
      ((EndStatus.success, ⟨1, 0⟩), (EndStatus.success, ⟨2, 0⟩)) :=
  (c1_decision_matrix_amended emsKillName EndStatus.fatal EndStatus.fatal ⟨1, 0⟩ ⟨2, 0⟩).2.2
    (by decide)

/-- C3: the end-file classifier checks the success marker first: content
containing it classifies SUCCESS (with the parsed runtime attached);
otherwise content containing the fatal marker classifies FATAL with the
parsed runtime; otherwise the result is (UNKNOWN, 0) and no runtime parse
is attempted. -/
theorem c3_end_file_classification (s : List Char) :
    (hasSub (strOf "Successfully") (removeNewlines s) = true →
      process_end_file s =
        (parse_runtime (removeNewlines s)).map (fun t => (EndStatus.success, t))) ∧
    (hasSub (strOf "Successfully") (removeNewlines s) = false →
      hasSub (strOf "Fatal") (removeNewlines s) = true →
      process_end_file s =
        (parse_runtime (removeNewlines s)).map (fun t => (EndStatus.fatal, t))) ∧
    (hasSub (strOf "Successfully") (removeNewlines s) = false →
      hasSub (strOf "Fatal") (removeNewlines s) = false →
      process_end_file s = some (EndStatus.unknown, ⟨0, 0⟩)) := by
  refine ⟨fun h1 => ?_, fun h1 h2 => ?_, fun h1 h2 => ?_⟩ <;>
    simp [process_end_file, h1, *]

/-- C3 witness: a marker containing the fatal token and not the success
token classifies FATAL with the parsed runtime. -/
theorem c3_end_file_classification_witness :
    process_end_file (strOf "Fatal=00hr 00min  0.59sec") =
      (parse_runtime (removeNewlines (strOf "Fatal=00hr 00min  0.59sec"))).map
        (fun t => (EndStatus.fatal, t)) :=
  (c3_end_file_classification (strOf "Fatal=00hr 00min  0.59sec")).2.1 (by decide) (by decide)

/-- C2 counterexample: on a success marker with duration
`00hr 02min  3.45sec` the parser returns 123.4, not the claimed 123.45 —
the character right before the literal `s` is dropped by the
`[0:index('s') - 1]` slice. -/
theorem c2_runtime_parse_counterexample :
    process_end_file
        (strOf "EnergyPlus Completed Successfully-- 1 Warning; 0 Severe Errors; Elapsed Time=00hr 02min  3.45sec") =
      some (EndStatus.success, ⟨1234, 1⟩) ∧
    DecVal.toRat ⟨1234, 1⟩ = (1234 : ℚ) / 10 ∧
    DecVal.toRat ⟨1234, 1⟩ ≠ (12345 : ℚ) / 100 :=
  ⟨by decide, by norm_num [DecVal.toRat], by norm_num [DecVal.toRat]⟩

/-- C2 (amended): for every well-formed completion marker containing the
success token, with duration tokens `HHhr`, `MMmin` and `S.DDsec`
separated by (possibly duplicated) spaces, the classifier returns SUCCESS
with runtime `hours*3600 + minutes*60 + seconds`, where seconds is the
numeric prefix of the third token up to *one character before* the
literal `s` — the final fractional digit before the `s` is dropped, so a
duration such as `00hr 02min  3.45sec` yields 123.4 rather than 123.45. -/
theorem c2_runtime_parse_amended (pre : List Char) (a b c d e f g : Char)
    (hS : hasSub (strOf "Successfully") pre = true)
    (hpreEq : '=' ∉ pre) (hpreNl : '\x0a' ∉ pre)
    (ha : a.isDigit = true) (hb : b.isDigit = true) (hc : c.isDigit = true)
    (hd : d.isDigit = true) (he : e.isDigit = true) (hf : f.isDigit = true)
    (hg : g.isDigit = true) :
    ∃ v : DecVal,
      process_end_file
          (pre ++ ['=', a, b, 'h', 'r', ' ', c, d, 'm', 'i', 'n', ' ', ' ',
            e, '.', f, g, 's', 'e', 'c']) =
        some (EndStatus.success, v) ∧
      v.toRat = ((10 * digitVal a + digitVal b : ℕ) : ℚ) * 3600 +
          ((10 * digitVal c + digitVal d : ℕ) : ℚ) * 60 +
          ((digitVal e : ℕ) : ℚ) + ((digitVal f : ℕ) : ℚ) / 10 := by
  have hdurNl : '\x0a' ∉ ([a, b, 'h', 'r', ' ', c, d, 'm', 'i', 'n', ' ', ' ',
      e, '.', f, g, 's', 'e', 'c'] : List Char) := by
    simp [List.mem_cons,
      ((digit_ne_special a ha).2.2.2.2).symm, ((digit_ne_special b hb).2.2.2.2).symm,
      ((digit_ne_special c hc).2.2.2.2).symm, ((digit_ne_special d hd).2.2.2.2).symm,
      ((digit_ne_special e he).2.2.2.2).symm, ((digit_ne_special f hf).2.2.2.2).symm,
      ((digit_ne_special g hg).2.2.2.2).symm]
  have hdurEq : '=' ∉ ([a, b, 'h', 'r', ' ', c, d, 'm', 'i', 'n', ' ', ' ',
      e, '.', f, g, 's', 'e', 'c'] : List Char) := by
    simp [List.mem_cons,
      ((digit_ne_special a ha).2.2.1).symm, ((digit_ne_special b hb).2.2.1).symm,
      ((digit_ne_special c hc).2.2.1).symm, ((digit_ne_special d hd).2.2.1).symm,
      ((digit_ne_special e he).2.2.1).symm, ((digit_ne_special f hf).2.2.1).symm,
      ((digit_ne_special g hg).2.2.1).symm]
  have hHSp : ' ' ∉ ([a, b, 'h', 'r'] : List Char) := by
    simp [List.mem_cons,
      ((digit_ne_special a ha).2.1).symm, ((digit_ne_special b hb).2.1).symm]
  have hMSp : ' ' ∉ ([c, d, 'm', 'i', 'n'] : List Char) := by
    simp [List.mem_cons,
      ((digit_ne_special c hc).2.1).symm, ((digit_ne_special d hd).2.1).symm]
  have hSSp : ' ' ∉ ([e, '.', f, g, 's', 'e', 'c'] : List Char) := by
    simp [List.mem_cons,
      ((digit_ne_special e he).2.1).symm, ((digit_ne_special f hf).2.1).symm,
      ((digit_ne_special g hg).2.1).symm]
  have hstrip :
      removeNewlines (pre ++ ['=', a, b, 'h', 'r', ' ', c, d, 'm', 'i', 'n', ' ', ' ',
        e, '.', f, g, 's', 'e', 'c']) =
      pre ++ ['=', a, b, 'h', 'r', ' ', c, d, 'm', 'i', 'n', ' ', ' ',
        e, '.', f, g, 's', 'e', 'c'] := by
    refine removeNewlines_eq_self _ ?_
    intro hmem
    rcases List.mem_append.mp hmem with h | h
    · exact hpreNl h
    · rcases List.mem_cons.mp h with h | h
      · exact absurd h (by decide)
      · exact hdurNl h
  have hSfull : hasSub (strOf "Successfully")
      (pre ++ ['=', a, b, 'h', 'r', ' ', c, d, 'm', 'i', 'n', ' ', ' ',
        e, '.', f, g, 's', 'e', 'c']) = true :=
    hasSub_append_right _ _ _ hS
  have hsplitEq : splitCh '='
      (pre ++ ['=', a, b, 'h', 'r', ' ', c, d, 'm', 'i', 'n', ' ', ' ',
        e, '.', f, g, 's', 'e', 'c']) =
      [pre, [a, b, 'h', 'r', ' ', c, d, 'm', 'i', 'n', ' ', ' ', e, '.', f, g, 's', 'e', 'c']] := by
    rw [splitCh_append '=' pre _ hpreEq, splitCh_sepFree '=' _ hdurEq]
  have hsplitSp : splitCh ' '
      [a, b, 'h', 'r', ' ', c, d, 'm', 'i', 'n', ' ', ' ', e, '.', f, g, 's', 'e', 'c'] =
      [[a, b, 'h', 'r'], [c, d, 'm', 'i', 'n'], [], [e, '.', f, g, 's', 'e', 'c']] := by
    show splitCh ' ' ([a, b, 'h', 'r'] ++ ' ' :: ([c, d, 'm', 'i', 'n'] ++ ' ' :: ' ' ::
      [e, '.', f, g, 's', 'e', 'c'])) = _
    rw [splitCh_append ' ' [a, b, 'h', 'r'] _ hHSp,
      splitCh_append ' ' [c, d, 'm', 'i', 'n'] _ hMSp]
    have hcons : splitCh ' ' (' ' :: [e, '.', f, g, 's', 'e', 'c']) =
        [] :: splitCh ' ' [e, '.', f, g, 's', 'e', 'c'] := by
      simp [splitCh]
    rw [hcons, splitCh_sepFree ' ' _ hSSp]
  have hfind : List.findIdx? (fun x => x = 's') [e, '.', f, g, 's', 'e', 'c'] = some 4 := by
    have h1 : (decide (e = 's')) = false := by
      simp only [decide_eq_false_iff_not]
      exact (digit_ne_special e he).1
    have h2 : (decide (f = 's')) = false := by
      simp only [decide_eq_false_iff_not]
      exact (digit_ne_special f hf).1
    have h3 : (decide (g = 's')) = false := by
      simp only [decide_eq_false_iff_not]
      exact (digit_ne_special g hg).1
    simp [List.findIdx?_cons, h1, h2, h3]
  have hparse : parse_runtime
      (pre ++ ['=', a, b, 'h', 'r', ' ', c, d, 'm', 'i', 'n', ' ', ' ',
        e, '.', f, g, 's', 'e', 'c']) =
      some ⟨(3600 * (10 * digitVal a + digitVal b) + 60 * (10 * digitVal c + digitVal d)) * 10 +
          (digitVal e * 10 + digitVal f), 1⟩ := by
    simp [parse_runtime, hsplitEq, hsplitSp, List.filter_cons,
      parseDecimal_two_digits a b ha hb, parseDecimal_two_digits c d hc hd, hfind,
      parseDecimal_one_dot_one e f he hf, DecVal.scale, DecVal.add, DecVal.mk.injEq]
  refine ⟨⟨(3600 * (10 * digitVal a + digitVal b) + 60 * (10 * digitVal c + digitVal d)) * 10 +
      (digitVal e * 10 + digitVal f), 1⟩, ?_, ?_⟩
  · simp [process_end_file, hstrip, hSfull, hparse]
  · rw [DecVal.toRat]
    push_cast
    field_simp
    ring

/-- C2 amended witness: the canonical marker with duration
`00hr 02min  3.45sec`. -/
theorem c2_runtime_parse_amended_witness :
    ∃ v : DecVal,
      process_end_file
          (strOf "EnergyPlus Completed Successfully-- 1 Warning; 0 Severe Errors; Elapsed Time" ++
            ['=', '0', '0', 'h', 'r', ' ', '0', '2', 'm', 'i', 'n', ' ', ' ',
              '3', '.', '4', '5', 's', 'e', 'c']) =
        some (EndStatus.success, v) ∧
      v.toRat = ((10 * digitVal '0' + digitVal '0' : ℕ) : ℚ) * 3600 +
          ((10 * digitVal '0' + digitVal '2' : ℕ) : ℚ) * 60 +
          ((digitVal '3' : ℕ) : ℚ) + ((digitVal '4' : ℕ) : ℚ) / 10 :=
  c2_runtime_parse_amended
    (strOf "EnergyPlus Completed Successfully-- 1 Warning; 0 Severe Errors; Elapsed Time")
    '0' '0' '0' '2' '3' '4' '5' (by decide) (by decide) (by decide) (by decide) (by decide)
    (by decide) (by decide) (by decide) (by decide) (by decide)

/-- The imperative strip loops of `diff_text_files` compute the filter
described by the spec. -/
theorem remove_volatile_eq (txt : List (List Char)) :
    remove_volatile txt = volatile_stripped txt := by
  induction txt with
  | nil => simp [remove_volatile, volatile_stripped]
  | cons l rest ih =>
    rw [remove_volatile, volatile_stripped, List.filter_cons]
    by_cases h : (skip_strings.any fun x => hasSub x l) = true
    · have hdec : (decide (∀ p ∈ skip_strings, hasSub p l = false)) = false := by
        simp only [decide_eq_false_iff_not]
        intro hall
        rcases List.any_eq_true.mp h with ⟨x, hx, hxl⟩
        rw [hall x hx] at hxl
        exact Bool.false_ne_true hxl
      rw [if_pos h, hdec]
      simpa [volatile_stripped] using ih
    · have hdec : (decide (∀ p ∈ skip_strings, hasSub p l = false)) = true := by
        simp only [decide_eq_true_eq]
        intro p hp
        rcases hb : hasSub p l with _ | _
        · rfl
        · exact absurd (List.any_eq_true.mpr ⟨p, hp, hb⟩) h
      rw [if_neg h, hdec]
      simpa [volatile_stripped] using ih

/-- The comparison outcome of `diff_text_files` as a function of the
spec-side stripped line sequences. -/
theorem diff_text_files_spec (txt1 txt2 : List (List Char)) :
    diff_text_files txt1 txt2 =
      (if volatile_stripped txt1 = volatile_stripped txt2 then (TextDiffOutcome.equal, false)
       else (TextDiffOutcome.diffs, true)) := by
  rw [diff_text_files]
  rw [remove_volatile_eq, remove_volatile_eq]

/-- C5: the text diff returns EQUAL exactly when the two line sequences
agree after removing every line containing one of the fixed volatile
substrings, and a unified-diff artifact is written exactly when the
result is DIFFS. -/
theorem c5_text_diff_equal_iff (txt1 txt2 : List (List Char)) :
    ((diff_text_files txt1 txt2).1 = TextDiffOutcome.equal ↔
      volatile_stripped txt1 = volatile_stripped txt2) ∧
    ((diff_text_files txt1 txt2).2 = true ↔
      (diff_text_files txt1 txt2).1 = TextDiffOutcome.diffs) := by
  by_cases h : volatile_stripped txt1 = volatile_stripped txt2 <;>
    simp [diff_text_files_spec, h]

/-- The sixteen dispatch-table kinds are pairwise distinct. -/
theorem diff_table_kinds_nodup : (diff_table.map Prod.fst).Nodup := by decide

/-- Each dispatch-table row carries the artifact name of its kind. -/
theorem diff_table_name_eq : ∀ x ∈ diff_table, x.2 = artifact_name x.1 := by decide

/-- Every kind occurs in the dispatch table with its artifact name. -/
theorem artifact_mem_diff_table : ∀ k : FileKind, (k, artifact_name k) ∈ diff_table := by
  intro k
  cases k <;> decide

/-- C4: for a case reaching the diff stage, a diff record of a given kind
is attached at most once; a record of kind `k` is attached only when the
artifact of `k` exists in both result directories; and when it does exist
in both, exactly one record of that kind is attached. -/
theorem c4_diff_dispatch (fs : FS) (dir1 dir2 : List Char) :
    (∀ k : FileKind, (dispatch_diffs fs dir1 dir2).count k ≤ 1) ∧
    (∀ k : FileKind, k ∈ dispatch_diffs fs dir1 dir2 →
      both_files_exist fs dir1 dir2 (artifact_name k) = true) ∧
    (∀ k : FileKind, both_files_exist fs dir1 dir2 (artifact_name k) = true →
      (dispatch_diffs fs dir1 dir2).count k = 1) := by
  have hcount : ∀ k : FileKind, (dispatch_diffs fs dir1 dir2).count k ≤ 1 := by
    intro k
    have hsub : List.Sublist (dispatch_diffs fs dir1 dir2) (diff_table.map Prod.fst) :=
      List.Sublist.map Prod.fst (List.filter_sublist diff_table)
    exact le_trans (hsub.count_le k) (List.nodup_iff_count_le_one.mp diff_table_kinds_nodup k)
  refine ⟨hcount, ?_, ?_⟩
  · intro k hk
    rw [dispatch_diffs] at hk
    rcases List.mem_map.mp hk with ⟨x, hx, hfst⟩
    rcases List.mem_filter.mp hx with ⟨hmem, hp⟩
    have hname := diff_table_name_eq x hmem
    rw [← hfst, ← hname]
    exact hp
  · intro k hk
    have hmem : (k, artifact_name k) ∈
        diff_table.filter (fun kf => both_files_exist fs dir1 dir2 kf.2) :=
      List.mem_filter.mpr ⟨artifact_mem_diff_table k, by simpa using hk⟩
    have hkmem : k ∈ dispatch_diffs fs dir1 dir2 := by
      rw [dispatch_diffs]
      exact List.mem_map.mpr ⟨(k, artifact_name k), hmem, rfl⟩
    have hpos : 0 < (dispatch_diffs fs dir1 dir2).count k := List.count_pos_iff.mpr hkmem
    have := hcount k
    omega

/-- C4 witness: with every artifact present, exactly one record of the
primary math kind is attached. -/
theorem c4_diff_dispatch_witness :
    (dispatch_diffs (fun _ => true) (strOf "a") (strOf "b")).count FileKind.eso = 1 :=
  (c4_diff_dispatch (fun _ => true) (strOf "a") (strOf "b")).2.2 FileKind.eso (by decide)

/-- Unfolding of the `diff_logs_for_build` loop over an arbitrary initial
accumulator. -/
theorem diff_logs_fold (outcome : List Char → List FileKind × Option (List Char))
    (entries : List DiffEntry) (acc : DiffLogsAcc) :
    entries.foldl (diff_logs_step outcome) acc =
      ⟨acc.structureEntries ++
          (entries.filter (fun e => ((outcome e.name).2).isNone)).map
            (fun e => ⟨e.name, e.records ++ (outcome e.name).1⟩),
        acc.updatedEntries ++
          entries.map (fun e => ⟨e.name, e.records ++ (outcome e.name).1⟩),
        acc.events ++
          (entries.map (fun e =>
            match (outcome e.name).2 with
            | none => [Event.diffCompleted e.name]
            | some msg => [Event.errorLogged e.name msg, Event.diffCompleted e.name])).flatten⟩ := by
  induction entries generalizing acc with
  | nil => simp
  | cons e rest ih =>
    rw [List.foldl_cons, ih]
    rcases houtcome : (outcome e.name).2 with _ | msg <;>
      simp [diff_logs_step, houtcome, List.filter_cons]

/-- C8: an exception while diffing one entry is caught at that entry's
boundary: the error is logged with the case identifier and underlying
message, the entry keeps the diff records attached before the exception,
the diff-completed event still fires for it, and every entry of the list
is processed — a failing case never aborts the loop. -/
theorem c8_diff_exception_boundary (outcome : List Char → List FileKind × Option (List Char))
    (entries : List DiffEntry) :
    (diff_logs_for_build outcome entries).updatedEntries =
      entries.map (fun e => ⟨e.name, e.records ++ (outcome e.name).1⟩) ∧
    (diff_logs_for_build outcome entries).events =
      (entries.map (fun e =>
        match (outcome e.name).2 with
        | none => [Event.diffCompleted e.name]
        | some msg => [Event.errorLogged e.name msg, Event.diffCompleted e.name])).flatten ∧
    (∀ e ∈ entries, ∀ msg, (outcome e.name).2 = some msg →
      Event.errorLogged e.name msg ∈ (diff_logs_for_build outcome entries).events) ∧
    (∀ e ∈ entries, Event.diffCompleted e.name ∈ (diff_logs_for_build outcome entries).events) := by
  have hfold := diff_logs_fold outcome entries ⟨[], [], []⟩
  have hupd : (diff_logs_for_build outcome entries).updatedEntries =
      entries.map (fun e => ⟨e.name, e.records ++ (outcome e.name).1⟩) := by
    rw [diff_logs_for_build, hfold]
    simp
  have hev : (diff_logs_for_build outcome entries).events =
      (entries.map (fun e =>
        match (outcome e.name).2 with
        | none => [Event.diffCompleted e.name]
        | some msg => [Event.errorLogged e.name msg, Event.diffCompleted e.name])).flatten := by
    rw [diff_logs_for_build, hfold]
    simp
  refine ⟨hupd, hev, ?_, ?_⟩
  · intro e he msg hmsg
    rw [hev]
    refine List.mem_flatten.mpr ⟨[Event.errorLogged e.name msg, Event.diffCompleted e.name], ?_, ?_⟩
    · refine List.mem_map.mpr ⟨e, he, ?_⟩
      rw [hmsg]
    · simp
  · intro e he
    rw [hev]
    rcases hmsg : (outcome e.name).2 with _ | msg
    · refine List.mem_flatten.mpr ⟨[Event.diffCompleted e.name], ?_, by simp⟩
      refine List.mem_map.mpr ⟨e, he, ?_⟩
      rw [hmsg]
    · refine List.mem_flatten.mpr
        ⟨[Event.errorLogged e.name msg, Event.diffCompleted e.name], ?_, by simp⟩
      refine List.mem_map.mpr ⟨e, he, ?_⟩
      rw [hmsg]

/-- C8 witness: a single entry whose diff processing throws after one
record still gets its diff-completed event. -/
theorem c8_diff_exception_boundary_witness :
    Event.diffCompleted (strOf "Case1") ∈
      (diff_logs_for_build (fun _ => ([FileKind.eso], some (strOf "boom")))
        [⟨strOf "Case1", []⟩]).events :=
  (c8_diff_exception_boundary (fun _ => ([FileKind.eso], some (strOf "boom")))
    [⟨strOf "Case1", []⟩]).2.2.2 ⟨strOf "Case1", []⟩ (by simp)

/-- Unfolding of the `run_build` staging loop over an arbitrary initial
accumulator. -/
theorem run_build_stage_fold (fs : FS) (readText : List Char → List Char) (tree : BuildTree)
    (entries : List (List Char)) (acc : List Event × List (List Char × Bool)) :
    entries.foldl
        (fun acc e =>
          let r := stage_entry fs readText tree e
          (acc.1 ++ r.1, acc.2 ++ r.2.toList))
        acc =
      (acc.1 ++ (entries.map (fun e => (stage_entry fs readText tree e).1)).flatten,
       acc.2 ++ entries.filterMap (fun e => (stage_entry fs readText tree e).2)) := by
  induction entries generalizing acc with
  | nil => simp
  | cons e rest ih =>
    rw [List.foldl_cons, ih]
    rcases hr : (stage_entry fs readText tree e).2 with _ | task <;>
      simp [List.filterMap_cons, hr]

/-- The staging loop processes every entry, accumulating each entry's
events and submitted task independently. -/
theorem run_build_stage_eq (fs : FS) (readText : List Char → List Char) (tree : BuildTree)
    (entries : List (List Char)) :
    run_build_stage fs readText tree entries =
      ((entries.map (fun e => (stage_entry fs readText tree e).1)).flatten,
       entries.filterMap (fun e => (stage_entry fs readText tree e).2)) := by
  rw [run_build_stage, run_build_stage_fold]
  simp

/-- C9: an entry whose input exists in neither primary (.idf) nor
composite (.imf) form is reported as a failed case completion with no
task submitted, and the staging loop still processes every other entry —
a missing input never aborts the build run. -/
theorem c9_missing_input (fs : FS) (readText : List Char → List Char) (tree : BuildTree)
    (entries : List (List Char)) (e : List Char) (hmem : e ∈ entries)
    (h1 : fs (idf_base_of tree e ++ strOf ".idf") = false)
    (h2 : fs (idf_base_of tree e ++ strOf ".imf") = false) :
    stage_entry fs readText tree e =
      ([Event.printedMissingInput e, Event.caseCompleted e false], none) ∧
    Event.caseCompleted e false ∈ (run_build_stage fs readText tree entries).1 ∧
    run_build_stage fs readText tree entries =
      ((entries.map (fun x => (stage_entry fs readText tree x).1)).flatten,
       entries.filterMap (fun x => (stage_entry fs readText tree x).2)) := by
  have hstage : stage_entry fs readText tree e =
      ([Event.printedMissingInput e, Event.caseCompleted e false], none) := by
    rw [stage_entry]
    rw [if_neg (by simp [h1]), if_neg (by simp [h2])]
  refine ⟨hstage, ?_, run_build_stage_eq fs readText tree entries⟩
  rw [run_build_stage_eq]
  refine List.mem_flatten.mpr ⟨[Event.printedMissingInput e, Event.caseCompleted e false], ?_, by simp⟩
  refine List.mem_map.mpr ⟨e, hmem, ?_⟩
  rw [hstage]

/-- C9 witness: a two-entry list with no inputs on disk reports the first
case as failed. -/
theorem c9_missing_input_witness :
    Event.caseCompleted (strOf "CaseA") false ∈
      (run_build_stage (fun _ => false) (fun _ => []) ⟨strOf "bd", strOf "tf"⟩
        [strOf "CaseA", strOf "CaseB"]).1 :=
  (c9_missing_input (fun _ => false) (fun _ => []) ⟨strOf "bd", strOf "tf"⟩
    [strOf "CaseA", strOf "CaseB"] (strOf "CaseA") (by simp) rfl rfl).2.1

/-- C10: an entry whose primary input exists and whose staged text
contains the FMU trigger `ExternalInterface:` is skipped entirely: only
the skip print is emitted, no case-completed notification fires for it,
no task is submitted, and a case that never ran classifies MISSING from
the absent end file. -/
theorem c10_fmu_skip (fs : FS) (readText : List Char → List Char) (tree : BuildTree)
    (entries : List (List Char)) (e : List Char) (hmem : e ∈ entries)
    (hidf : fs (idf_base_of tree e ++ strOf ".idf") = true)
    (hext : hasSub extIntTok (stage_transform (readText (idf_base_of tree e ++ strOf ".idf"))) =
      true)
    (gs : FS) (readText2 : List Char → List Char) (case_dir : List Char)
    (hend : gs (pjoin case_dir (strOf "eplusout.end")) = false) :
    stage_entry fs readText tree e = ([Event.printedSkipFMU e], none) ∧
    (∀ nm b, Event.caseCompleted nm b ∉ (stage_entry fs readText tree e).1) ∧
    Event.printedSkipFMU e ∈ (run_build_stage fs readText tree entries).1 ∧
    read_end_status gs readText2 case_dir = some (EndStatus.missing, ⟨0, 0⟩) := by
  have hstage : stage_entry fs readText tree e = ([Event.printedSkipFMU e], none) := by
    rw [stage_entry, if_pos hidf]
    simp only [hext, if_true]
  refine ⟨hstage, ?_, ?_, ?_⟩
  · intro nm b
    rw [hstage]
    simp
  · rw [run_build_stage_eq]
    refine List.mem_flatten.mpr ⟨[Event.printedSkipFMU e], ?_, by simp⟩
    refine List.mem_map.mpr ⟨e, hmem, ?_⟩
    rw [hstage]
  · rw [read_end_status, if_neg (by simp [hend])]

/-- C10 witness: a file with the FMU trigger is skipped with only the
print event, and a missing end file classifies MISSING. -/
theorem c10_fmu_skip_witness :
    stage_entry (fun _ => true) (fun _ => extIntTok) ⟨strOf "bd", strOf "tf"⟩ (strOf "FmuCase") =
      ([Event.printedSkipFMU (strOf "FmuCase")], none) ∧
    read_end_status (fun _ => false) (fun _ => []) (strOf "rd") =
      some (EndStatus.missing, ⟨0, 0⟩) :=
  let h := c10_fmu_skip (fun _ => true) (fun _ => extIntTok) ⟨strOf "bd", strOf "tf"⟩
    [strOf "FmuCase"] (strOf "FmuCase") (by simp) rfl (by decide)
    (fun _ => false) (fun _ => []) (strOf "rd") rfl
  ⟨h.1, h.2.2.2⟩

/-- Executing a task list leaves each case slot holding the
deterministic executor result exactly when the case was in the list,
independently of execution order. -/
theorem run_tasks_eq (ex : List Char → RunResult) (l : List (List Char)) (s : RunState) :
    run_tasks ex l s = fun k => if k ∈ l then some (ex k) else s k := by
  induction l generalizing s with
  | nil => funext k; simp [run_tasks]
  | cons t rest ih =>
    funext k
    rw [run_tasks, List.foldl_cons]
    rw [show List.foldl (apply_task ex) (apply_task ex s t) rest =
      run_tasks ex rest (apply_task ex s t) from rfl]
    rw [ih]
    by_cases h1 : k ∈ rest <;> by_cases h2 : k = t <;>
      simp [apply_task, h1, h2, List.mem_cons]

/-- C6: running the same task set serially (pool size 1, submission
order) or through a pool (completion order an arbitrary permutation of
the submissions) produces the same final execution states and hence the
same per-case suite outcome, and with distinct case names every case is
executed exactly once in either mode. -/
theorem c6_pool_equivalence (ex : List Char → RunResult)
    (tasks orderA orderB entries : List (List Char)) (sA sB : RunState)
    (hA : orderA.Perm tasks) (hB : orderB.Perm tasks) (hnd : tasks.Nodup) :
    run_tasks ex orderA sA = run_tasks ex tasks sA ∧
    run_tasks ex orderB sB = run_tasks ex tasks sB ∧
    suite_outcome entries (run_tasks ex orderA sA) (run_tasks ex orderB sB) =
      suite_outcome entries (run_tasks ex tasks sA) (run_tasks ex tasks sB) ∧
    (orderA.Nodup ∧ orderB.Nodup ∧
      ∀ t, (t ∈ orderA ↔ t ∈ tasks) ∧ (t ∈ orderB ↔ t ∈ tasks)) := by
  have e1 : run_tasks ex orderA sA = run_tasks ex tasks sA := by
    rw [run_tasks_eq, run_tasks_eq]
    funext k
    simp [hA.mem_iff]
  have e2 : run_tasks ex orderB sB = run_tasks ex tasks sB := by
    rw [run_tasks_eq, run_tasks_eq]
    funext k
    simp [hB.mem_iff]
  refine ⟨e1, e2, by rw [e1, e2], hA.nodup_iff.mpr hnd, hB.nodup_iff.mpr hnd,
    fun t => ⟨hA.mem_iff, hB.mem_iff⟩⟩

/-- C6 witness: two cases executed out of order by the pool give the same
suite outcome as the serial order. -/
theorem c6_pool_equivalence_witness :
    suite_outcome [strOf "A", strOf "B"]
        (run_tasks (fun _ => ⟨EndStatus.success, ⟨1, 0⟩⟩) [strOf "B", strOf "A"] (fun _ => none))
        (run_tasks (fun _ => ⟨EndStatus.success, ⟨1, 0⟩⟩) [strOf "A", strOf "B"] (fun _ => none)) =
      suite_outcome [strOf "A", strOf "B"]
        (run_tasks (fun _ => ⟨EndStatus.success, ⟨1, 0⟩⟩) [strOf "A", strOf "B"] (fun _ => none))
        (run_tasks (fun _ => ⟨EndStatus.success, ⟨1, 0⟩⟩) [strOf "A", strOf "B"] (fun _ => none)) :=
  (c6_pool_equivalence (fun _ => ⟨EndStatus.success, ⟨1, 0⟩⟩)
    [strOf "A", strOf "B"] [strOf "B", strOf "A"] [strOf "A", strOf "B"]
    [strOf "A", strOf "B"] (fun _ => none) (fun _ => none)
    (by decide) (by decide) (by decide)).2.2.1

/-- Prepending to a non-empty list keeps its last element. -/
theorem getLast?_cons_ne_nil {α : Type} (x : α) (l : List α) (h : l ≠ []) :
    (x :: l).getLast? = l.getLast? := by
  cases l with
  | nil => exact absurd rfl h
  | cons y ys => exact List.getLast?_cons_cons

/-- A run emits the cancellation event at most once. -/
theorem runFrom_count_cancel (cancelAt : Nat) (instrs : List Instr) : ∀ n : Nat,
    (runFrom cancelAt n instrs).count Event.cancelled ≤ 1 := by
  induction instrs with
  | nil => intro n; simp [runFrom]
  | cons i rest ih =>
    intro n
    cases i with
    | check =>
      rw [runFrom]
      split
      · simp
      · exact ih (n + 1)
    | prepare => rw [runFrom]; exact ih (n + 1)
    | exec nm =>
      rw [runFrom, List.count_cons_of_ne (by simp)]
      exact ih (n + 1)
    | emitStarting =>
      rw [runFrom, List.count_cons_of_ne (by simp)]
      exact ih (n + 1)
    | emitSims =>
      rw [runFrom, List.count_cons_of_ne (by simp)]
      exact ih (n + 1)
    | diffCase nm =>
      rw [runFrom, List.count_cons_of_ne (by simp)]
      exact ih (n + 1)
    | emitAllDone =>
      rw [runFrom, List.count_cons_of_ne (by simp)]
      exact ih (n + 1)

/-- If the cancellation event is emitted, it is the final event of the
run: nothing — in particular no case execution — happens afterwards. -/
theorem runFrom_cancel_last (cancelAt : Nat) (instrs : List Instr) : ∀ n : Nat,
    Event.cancelled ∈ runFrom cancelAt n instrs →
    (runFrom cancelAt n instrs).getLast? = some Event.cancelled := by
  induction instrs with
  | nil => intro n h; simp [runFrom] at h
  | cons i rest ih =>
    intro n h
    cases i with
    | check =>
      rw [runFrom] at h ⊢
      by_cases hca : cancelAt ≤ n
      · rw [if_pos hca]
        simp
      · rw [if_neg hca] at h ⊢
        exact ih (n + 1) h
    | prepare =>
      rw [runFrom] at h ⊢
      exact ih (n + 1) h
    | exec nm =>
      rw [runFrom] at h ⊢
      have hmem : Event.cancelled ∈ runFrom cancelAt (n + 1) rest := by
        rcases List.mem_cons.mp h with h' | h'
        · simp at h'
        · exact h'
      rw [getLast?_cons_ne_nil _ _ (List.ne_nil_of_mem hmem)]
      exact ih (n + 1) hmem
    | emitStarting =>
      rw [runFrom] at h ⊢
      have hmem : Event.cancelled ∈ runFrom cancelAt (n + 1) rest := by
        rcases List.mem_cons.mp h with h' | h'
        · simp at h'
        · exact h'
      rw [getLast?_cons_ne_nil _ _ (List.ne_nil_of_mem hmem)]
      exact ih (n + 1) hmem
    | emitSims =>
      rw [runFrom] at h ⊢
      have hmem : Event.cancelled ∈ runFrom cancelAt (n + 1) rest := by
        rcases List.mem_cons.mp h with h' | h'
        · simp at h'
        · exact h'
      rw [getLast?_cons_ne_nil _ _ (List.ne_nil_of_mem hmem)]
      exact ih (n + 1) hmem
    | diffCase nm =>
      rw [runFrom] at h ⊢
      have hmem : Event.cancelled ∈ runFrom cancelAt (n + 1) rest := by
        rcases List.mem_cons.mp h with h' | h'
        · simp at h'
        · exact h'
      rw [getLast?_cons_ne_nil _ _ (List.ne_nil_of_mem hmem)]
      exact ih (n + 1) hmem
    | emitAllDone =>
      rw [runFrom] at h ⊢
      have hmem : Event.cancelled ∈ runFrom cancelAt (n + 1) rest := by
        rcases List.mem_cons.mp h with h' | h'
        · simp at h'
        · exact h'
      rw [getLast?_cons_ne_nil _ _ (List.ne_nil_of_mem hmem)]
      exact ih (n + 1) hmem

/-- A stream without the all-done instruction never emits the all-done
event, cancelled or not. -/
theorem runFrom_no_alldone (cancelAt : Nat) (instrs : List Instr)
    (h : Instr.emitAllDone ∉ instrs) : ∀ n : Nat,
    Event.allDone ∉ runFrom cancelAt n instrs := by
  induction instrs with
  | nil => intro n; simp [runFrom]
  | cons i rest ih =>
    intro n
    have hrest : Instr.emitAllDone ∉ rest := fun hh => h (List.mem_cons_of_mem _ hh)
    cases i with
    | check =>
      rw [runFrom]
      split
      · simp
      · exact ih hrest (n + 1)
    | prepare => rw [runFrom]; exact ih hrest (n + 1)
    | exec nm =>
      rw [runFrom]
      simp only [List.mem_cons, not_or]
      exact ⟨by simp, ih hrest (n + 1)⟩
    | emitStarting =>
      rw [runFrom]
      simp only [List.mem_cons, not_or]
      exact ⟨by simp, ih hrest (n + 1)⟩
    | emitSims =>
      rw [runFrom]
      simp only [List.mem_cons, not_or]
      exact ⟨by simp, ih hrest (n + 1)⟩
    | diffCase nm =>
      rw [runFrom]
      simp only [List.mem_cons, not_or]
      exact ⟨by simp, ih hrest (n + 1)⟩
    | emitAllDone => exact absurd (List.mem_cons_self _ _) h

/-- A stream without the all-done instruction has no all-done event in
its uncancelled event list either. -/
theorem pure_run_no_alldone (l : List Instr) (h : Instr.emitAllDone ∉ l) :
    Event.allDone ∉ pure_run l := by
  intro hmem
  rcases List.mem_flatten.mp hmem with ⟨evs, hevs, hin⟩
  rcases List.mem_map.mp hevs with ⟨i, hi, rfl⟩
  cases i with
  | emitAllDone => exact h hi
  | check => simp [instr_events] at hin
  | prepare => simp [instr_events] at hin
  | exec nm => simp [instr_events] at hin
  | emitStarting => simp [instr_events] at hin
  | emitSims => simp [instr_events] at hin
  | diffCase nm => simp [instr_events] at hin

/-- Running an appended stream: a cancellation observed in the first part
cuts the second part off entirely; otherwise the runs concatenate. -/
theorem runFrom_append (cancelAt : Nat) (l₁ l₂ : List Instr) : ∀ n : Nat,
    runFrom cancelAt n (l₁ ++ l₂) =
      if Event.cancelled ∈ runFrom cancelAt n l₁ then runFrom cancelAt n l₁
      else runFrom cancelAt n l₁ ++ runFrom cancelAt (n + l₁.length) l₂ := by
  induction l₁ with
  | nil => intro n; simp [runFrom]
  | cons i rest ih =>
    intro n
    have harith : n + 1 + rest.length = n + (rest.length + 1) := by omega
    cases i with
    | check =>
      by_cases hca : cancelAt ≤ n
      · simp [runFrom, hca]
      · simp only [List.cons_append, runFrom, if_neg hca, List.append_eq]
        rw [ih (n + 1)]
        simp only [List.length_cons, harith]
    | prepare =>
      simp only [List.cons_append, runFrom, List.append_eq]
      rw [ih (n + 1)]
      simp only [List.length_cons, harith]
    | exec nm =>
      simp only [List.cons_append, runFrom, List.append_eq]
      rw [ih (n + 1)]
      by_cases hmem : Event.cancelled ∈ runFrom cancelAt (n + 1) rest
      · rw [if_pos hmem, if_pos (List.mem_cons_of_mem _ hmem)]
      · rw [if_neg hmem, if_neg (by simp [List.mem_cons, hmem])]
        simp only [List.length_cons, harith, List.cons_append]
    | emitStarting =>
      simp only [List.cons_append, runFrom, List.append_eq]
      rw [ih (n + 1)]
      by_cases hmem : Event.cancelled ∈ runFrom cancelAt (n + 1) rest
      · rw [if_pos hmem, if_pos (List.mem_cons_of_mem _ hmem)]
      · rw [if_neg hmem, if_neg (by simp [List.mem_cons, hmem])]
        simp only [List.length_cons, harith, List.cons_append]
    | emitSims =>
      simp only [List.cons_append, runFrom, List.append_eq]
      rw [ih (n + 1)]
      by_cases hmem : Event.cancelled ∈ runFrom cancelAt (n + 1) rest
      · rw [if_pos hmem, if_pos (List.mem_cons_of_mem _ hmem)]
      · rw [if_neg hmem, if_neg (by simp [List.mem_cons, hmem])]
        simp only [List.length_cons, harith, List.cons_append]
    | diffCase nm =>
      simp only [List.cons_append, runFrom, List.append_eq]
      rw [ih (n + 1)]
      by_cases hmem : Event.cancelled ∈ runFrom cancelAt (n + 1) rest
      · rw [if_pos hmem, if_pos (List.mem_cons_of_mem _ hmem)]
      · rw [if_neg hmem, if_neg (by simp [List.mem_cons, hmem])]
        simp only [List.length_cons, harith, List.cons_append]
    | emitAllDone =>
      simp only [List.cons_append, runFrom, List.append_eq]
      rw [ih (n + 1)]
      by_cases hmem : Event.cancelled ∈ runFrom cancelAt (n + 1) rest
      · rw [if_pos hmem, if_pos (List.mem_cons_of_mem _ hmem)]
      · rw [if_neg hmem, if_neg (by simp [List.mem_cons, hmem])]
        simp only [List.length_cons, harith, List.cons_append]

/-- A run in which the cancellation event never fires emits exactly the
uncancelled event list. -/
theorem runFrom_pure (cancelAt : Nat) (instrs : List Instr) : ∀ n : Nat,
    Event.cancelled ∉ runFrom cancelAt n instrs →
    runFrom cancelAt n instrs = pure_run instrs := by
  induction instrs with
  | nil => intro n _; simp [runFrom, pure_run]
  | cons i rest ih =>
    intro n h
    cases i with
    | check =>
      rw [runFrom] at h ⊢
      by_cases hca : cancelAt ≤ n
      · rw [if_pos hca] at h
        simp at h
      · rw [if_neg hca] at h ⊢
        rw [ih (n + 1) h]
        simp [pure_run, instr_events]
    | prepare =>
      rw [runFrom] at h ⊢
      rw [ih (n + 1) h]
      simp [pure_run, instr_events]
    | exec nm =>
      rw [runFrom] at h ⊢
      rw [ih (n + 1) (fun hh => h (List.mem_cons_of_mem _ hh))]
      simp [pure_run, instr_events]
    | emitStarting =>
      rw [runFrom] at h ⊢
      rw [ih (n + 1) (fun hh => h (List.mem_cons_of_mem _ hh))]
      simp [pure_run, instr_events]
    | emitSims =>
      rw [runFrom] at h ⊢
      rw [ih (n + 1) (fun hh => h (List.mem_cons_of_mem _ hh))]
      simp [pure_run, instr_events]
    | diffCase nm =>
      rw [runFrom] at h ⊢
      rw [ih (n + 1) (fun hh => h (List.mem_cons_of_mem _ hh))]
      simp [pure_run, instr_events]
    | emitAllDone =>
      rw [runFrom] at h ⊢
      rw [ih (n + 1) (fun hh => h (List.mem_cons_of_mem _ hh))]
      simp [pure_run, instr_events]

/-- The all-done instruction occurs only as the final instruction of the
suite stream, never in its body. -/
theorem emitAllDone_not_in_body (tasksA tasksB entries : List (List Char)) :
    Instr.emitAllDone ∉ suite_body tasksA tasksB entries := by
  simp [suite_body, List.mem_cons, List.mem_append, List.mem_flatten, List.mem_map]

/-- C7 counterexample: the cancellation flag set during the diff phase —
after the last poll, which sits before the simulations-complete event —
is never observed: the suite-complete event still fires and the
cancellation event never does, although the flag was set strictly inside
the run. -/
theorem c7_cancellation_counterexample :
    10 < (suite_instrs [strOf "T"] [strOf "T"] [strOf "T"]).length ∧
    Event.allDone ∈ run_suite_events [strOf "T"] [strOf "T"] [strOf "T"] 10 ∧
    Event.cancelled ∉ run_suite_events [strOf "T"] [strOf "T"] [strOf "T"] 10 :=
  ⟨by decide, by decide, by decide⟩

/-- C7 (amended): the cancellation flag is polled after directory
preparation, before each serial task, and after each build phase — not
during the diff phase.  The cancellation event fires at most once; when
it fires it is the final event of the run (no case not yet started is
executed afterwards) and the suite-complete event never fires; when it
never fires the run emits its full uncancelled event list, with the
suite-complete event exactly once; and a flag set before the first poll
cancels the run before any case executes. -/
theorem c7_cancellation_amended (tasksA tasksB entries : List (List Char)) (cancelAt : Nat) :
    (run_suite_events tasksA tasksB entries cancelAt).count Event.cancelled ≤ 1 ∧
    (Event.cancelled ∈ run_suite_events tasksA tasksB entries cancelAt →
      (run_suite_events tasksA tasksB entries cancelAt).count Event.cancelled = 1 ∧
      (run_suite_events tasksA tasksB entries cancelAt).getLast? = some Event.cancelled ∧
      Event.allDone ∉ run_suite_events tasksA tasksB entries cancelAt) ∧
    (Event.cancelled ∉ run_suite_events tasksA tasksB entries cancelAt →
      run_suite_events tasksA tasksB entries cancelAt =
        pure_run (suite_instrs tasksA tasksB entries) ∧
      (run_suite_events tasksA tasksB entries cancelAt).count Event.allDone = 1) ∧
    (cancelAt ≤ 1 → run_suite_events tasksA tasksB entries cancelAt = [Event.cancelled]) := by
  refine ⟨runFrom_count_cancel cancelAt _ 0, ?_, ?_, ?_⟩
  · intro hmem
    refine ⟨?_, runFrom_cancel_last cancelAt _ 0 hmem, ?_⟩
    · have hpos : 0 < (run_suite_events tasksA tasksB entries cancelAt).count Event.cancelled :=
        List.count_pos_iff.mpr hmem
      have hle := runFrom_count_cancel cancelAt (suite_instrs tasksA tasksB entries) 0
      rw [run_suite_events]
      rw [run_suite_events] at hpos
      omega
    · rw [run_suite_events, suite_instrs] at hmem ⊢
      rw [runFrom_append] at hmem ⊢
      by_cases hb : Event.cancelled ∈ runFrom cancelAt 0 (suite_body tasksA tasksB entries)
      · rw [if_pos hb]
        exact runFrom_no_alldone cancelAt _ (emitAllDone_not_in_body tasksA tasksB entries) 0
      · rw [if_neg hb] at hmem
        rcases List.mem_append.mp hmem with h' | h'
        · exact absurd h' hb
        · rw [runFrom] at h'
          simp [runFrom] at h'
  · intro hnc
    have hpure : run_suite_events tasksA tasksB entries cancelAt =
        pure_run (suite_instrs tasksA tasksB entries) := by
      rw [run_suite_events] at hnc ⊢
      exact runFrom_pure cancelAt _ 0 hnc
    refine ⟨hpure, ?_⟩
    rw [hpure, suite_instrs]
    have hsplit : pure_run (suite_body tasksA tasksB entries ++ [Instr.emitAllDone]) =
        pure_run (suite_body tasksA tasksB entries) ++ [Event.allDone] := by
      simp [pure_run, List.map_append, instr_events]
    rw [hsplit, List.count_append]
    have h0 : Event.allDone ∉ pure_run (suite_body tasksA tasksB entries) :=
      pure_run_no_alldone _ (emitAllDone_not_in_body tasksA tasksB entries)
    rw [List.count_eq_zero.mpr h0]
    simp
  · intro h
    simp [run_suite_events, suite_instrs, suite_body, runFrom, h]

/-- C7 amended witness: a flag set before the first poll cancels the run
immediately, with the cancellation event as the only event. -/
theorem c7_cancellation_amended_witness :
    run_suite_events [strOf "T"] [strOf "T"] [strOf "T"] 0 = [Event.cancelled] :=
  (c7_cancellation_amended [strOf "T"] [strOf "T"] [strOf "T"] 0).2.2.2 (by decide)

end EPReg
